import Mathlib

/-!
Verification of the left-column reference matcher in `src/app.py`
(Reference Highlighter Web).

The development shallowly embeds the program:

* strings are `String` / `List Char`; Python `str.strip`, `str.upper`,
  `str.lower`, `str.split` are modelled on character lists;
* the regex `UTR_PATTERN = [A-Za-z0-9]{6,}` is modelled as the maximal
  runs of ASCII alphanumeric characters of length at least 6;
* page-space coordinates (PyMuPDF floats) are modelled as rationals `ℚ`;
* the Excel scan of `load_utrs_from_excel` is modelled on a tree of
  sheets, each sheet giving the outcome of `pd.read_excel` at header
  offsets 0..4 (`none` = the read raised, `some t` = a table with named
  columns);
* `st.stop()` aborts are modelled with `Except String`.
-/

namespace App

/-! ## Characters and Python string primitives -/

/-- ASCII alphanumeric test: the character class `[A-Za-z0-9]` of
`UTR_PATTERN` (src/app.py line 16). -/
def isAlnumAscii (c : Char) : Bool :=
  (decide (65 ≤ c.toNat) && decide (c.toNat ≤ 90)) ||
  (decide (97 ≤ c.toNat) && decide (c.toNat ≤ 122)) ||
  (decide (48 ≤ c.toNat) && decide (c.toNat ≤ 57))

/-- Python whitespace (the characters `str.strip` / `str.split` treat as
space, restricted to those occurring in this development): space, tab,
newline, carriage return, vertical tab, form feed and the non-breaking
space U+00A0. -/
def isPySpace (c : Char) : Bool :=
  c.toNat = 32 || c.toNat = 9 || c.toNat = 10 || c.toNat = 13 ||
  c.toNat = 11 || c.toNat = 12 || c.toNat = 160

/-- Python `str.strip()` on a character list: drop whitespace from both
ends. -/
def pyStrip (l : List Char) : List Char :=
  ((l.dropWhile isPySpace).reverse.dropWhile isPySpace).reverse

/-- ASCII uppercase of one character (Python `str.upper` restricted to
ASCII; every token the program uppercases is ASCII alphanumeric). -/
def asciiUpper (c : Char) : Char :=
  if 97 ≤ c.toNat ∧ c.toNat ≤ 122 then Char.ofNat (c.toNat - 32) else c

/-- ASCII lowercase of one character (Python `str.lower` restricted to
ASCII). -/
def asciiLower (c : Char) : Char :=
  if 65 ≤ c.toNat ∧ c.toNat ≤ 90 then Char.ofNat (c.toNat + 32) else c

/-- Python `str.upper()` on a character list (ASCII fragment). -/
def pyUpper (l : List Char) : List Char := l.map asciiUpper

/-- `str(wtxt).strip().upper()` — the word/token normalisation used at
src/app.py lines 146, 222 and 250. -/
def normW (s : String) : String := ⟨pyUpper (pyStrip s.data)⟩

/-! ## The tokenizer `UTR_PATTERN.findall` -/

/-- Helper of `runsBy`: `cur` is the reversed current run. -/
def runsByAux (p : Char → Bool) : List Char → List Char → List (List Char)
  | cur, [] => if cur = [] then [] else [cur.reverse]
  | cur, c :: cs =>
    if p c then runsByAux p (c :: cur) cs
    else if cur = [] then runsByAux p [] cs
    else cur.reverse :: runsByAux p [] cs

/-- The maximal runs of characters satisfying `p`, in order. -/
def runsBy (p : Char → Bool) (l : List Char) : List (List Char) :=
  runsByAux p [] l

/-- `UTR_PATTERN.findall(s)`: all maximal ASCII-alphanumeric runs of
length at least 6 (src/app.py line 16). -/
def utrFindall (l : List Char) : List (List Char) :=
  (runsBy isAlnumAscii l).filter (fun r => decide (6 ≤ r.length))

/-- `extract_utrs_from_cell` (src/app.py lines 102-105): `none` models a
`NaN` cell (`pd.isna`), otherwise the matches of `UTR_PATTERN` on
`str(val).strip()`. -/
def extract_utrs_from_cell (val : Option String) : List String :=
  match val with
  | none => []
  | some s => (utrFindall (pyStrip s.data)).map (fun r => ⟨r⟩)

/-! ## Excel header detection and the sheet scan -/

/-- `normalize_header` (src/app.py lines 93-97): replace `\xa0` by a
space, collapse whitespace runs with `" ".join(s.split())`, strip, and
lowercase. -/
def normalize_header (s : String) : String :=
  ⟨(pyStrip ((List.intersperse [' ']
      (runsBy (fun c => !isPySpace c)
        (s.data.map (fun c => if c.toNat = 160 then ' ' else c)))).flatten)).map
    asciiLower⟩

/-- Substring test on character lists (Python `in` on strings). -/
def containsTok (needle : List Char) : List Char → Bool
  | [] => needle.isEmpty
  | c :: rest => needle.isPrefixOf (c :: rest) || containsTok needle rest

/-- `looks_like_utr_header` (src/app.py lines 99-100):
`"utr" in normalize_header(h)`. -/
def looks_like_utr_header (h : String) : Bool :=
  containsTok "utr".data (normalize_header h).data

/-- One successful `pd.read_excel` outcome: the columns in order, each a
name paired with its cell values (`none` = `NaN`, removed by
`dropna()`). -/
structure SheetTable where
  cols : List (String × List (Option String))
deriving DecidableEq

/-- The first column of `t` whose name looks like a UTR header —
the `for c in df.columns` loop of src/app.py lines 136-139. -/
def findUtrCol (t : SheetTable) : Option (String × List (Option String)) :=
  t.cols.find? (fun c => looks_like_utr_header c.1)

/-- A sheet is modelled by the list of `pd.read_excel` outcomes at
header offsets 0,1,2,3,4 (`none` = the read raised and the offset is
skipped, src/app.py lines 126-129). -/
abbrev ExcelSheet : Type := List (Option SheetTable)

/-- One uploaded Excel file: its name and its sheets in
`xls.sheet_names` order. -/
structure ExcelFile where
  name : String
  sheets : List ExcelSheet
deriving DecidableEq

/-- Scan the header offsets of one sheet in order; return the cell
column of the first offset whose table has a UTR-like column
(src/app.py lines 124-149). -/
def scanSheet : List (Option SheetTable) → Option (List (Option String))
  | [] => none
  | none :: rest => scanSheet rest
  | some t :: rest =>
    match findUtrCol t with
    | some c => some c.2
    | none => scanSheet rest

/-- Scan the sheets of one file in order, stopping at the first sheet
that yields a UTR column (the `found` flag of src/app.py
lines 122-151). -/
def scanFile : List ExcelSheet → Option (List (Option String))
  | [] => none
  | s :: ss =>
    match scanSheet s with
    | some c => some c
    | none => scanFile ss

/-- The tokens contributed by one UTR column: for every non-`NaN` cell
(`dropna()`), every `UTR_PATTERN` match, stripped and uppercased
(src/app.py lines 144-146). -/
def colTokens (cells : List (Option String)) : List String :=
  (cells.filterMap id).flatMap
    (fun v => (extract_utrs_from_cell (some v)).map
      (fun t => ⟨pyUpper (pyStrip t.data)⟩))

/-- `load_utrs_from_excel` (src/app.py lines 107-157): the files in
order; a file none of whose sheets yields a UTR-like column aborts the
run (`st.stop()`), modelled as `Except.error` carrying the file name.
The token list models the accumulated set `utrs` (membership is what
matters). -/
def load_utrs_from_excel : List ExcelFile → Except String (List String)
  | [] => .ok []
  | f :: fs =>
    match scanFile f.sheets with
    | none => .error f.name
    | some cells =>
      match load_utrs_from_excel fs with
      | .error e => .error e
      | .ok rest => .ok (colTokens cells ++ rest)

/-! ## Pages, bands and the matching pass -/

/-- `HEADER_Y_TOP_RATIO = 0.18` (src/app.py line 13). -/
def headerYTopFrac : ℚ := 18 / 100

/-- `DEFAULT_LEFT_BAND_WIDTH = 140.0` (src/app.py line 14). -/
def defaultLeftBandWidth : ℚ := 140

/-- One entry of `page.get_text("words")`: a positioned word
`(x0, y0, x1, y1, text)`. -/
structure Word where
  x0 : ℚ
  y0 : ℚ
  x1 : ℚ
  y1 : ℚ
  text : String
deriving DecidableEq

/-- One PDF page: `page.rect.x0`, `page.rect.x1`, `page.rect.height`
and its extracted word list (empty when extraction raised,
src/app.py lines 207-210). -/
structure Page where
  page_left : ℚ
  page_right : ℚ
  page_height : ℚ
  words : List Word
deriving DecidableEq

/-- The `band_mode` string of src/app.py lines 231-240. -/
inductive BandMode where
  | manual
  | auto
  | fallback
deriving DecidableEq

/-- `y_min = page_height * HEADER_Y_TOP_RATIO` (src/app.py line 215). -/
def yMinOf (page : Page) : ℚ := page.page_height * headerYTopFrac

/-- The first loop of src/app.py lines 218-225: the left coordinate of
the first word (in extraction order) at or below `y_min` whose
normalised text is in the identifier set. -/
def sampleLeftX (utrs : List String) (y_min : ℚ) : List Word → Option ℚ
  | [] => none
  | w :: ws =>
    if w.y0 < y_min then sampleLeftX utrs y_min ws
    else if normW w.text ∈ utrs then some w.x0
    else sampleLeftX utrs y_min ws

/-- Band computation (src/app.py lines 227-240). -/
def computeBand (page_left page_right : ℚ) (manual_x1 : Option ℚ)
    (sample_left_x : Option ℚ) : ℚ × ℚ × BandMode :=
  match manual_x1 with
  | some m => (page_left, m, BandMode.manual)
  | none =>
    match sample_left_x with
    | some sx => (sx, min page_right (sx + defaultLeftBandWidth), BandMode.auto)
    | none =>
      (page_left, min (page_left + defaultLeftBandWidth) page_right,
        BandMode.fallback)

/-- The guard chain of the matching loop (src/app.py lines 245-251): a
word is skipped unless it is at or below `y_min`, fully inside the
band, and its normalised text is in the identifier set. -/
def wordHit (utrs : List String) (y_min x0_band x1_band : ℚ)
    (w : Word) : Bool :=
  !(decide (w.y0 < y_min)) &&
  (decide (x0_band ≤ w.x0) && decide (w.x1 ≤ x1_band)) &&
  decide (normW w.text ∈ utrs)

/-- The words the matching loop keeps (each one is highlighted and sets
its identifier in `found_map`), in page order. -/
def pageMatches (utrs : List String) (y_min x0_band x1_band : ℚ)
    (words : List Word) : List Word :=
  words.filter (wordHit utrs y_min x0_band x1_band)

/-- The successive `found_map[wu] = True` updates of src/app.py
line 253, folded over the kept words. -/
def fmAfter (fm0 : String → Bool) (ms : List Word) : String → Bool :=
  ms.foldl (fun fm w => fun v => if v = normW w.text then true else fm v) fm0

/-- The outcome of one page pass. -/
structure PageResult where
  x0_band : ℚ
  x1_band : ℚ
  mode : BandMode
  hits : List Word
  fm : String → Bool

/-- One iteration of the page loop of `highlight_left_column_fast`
(src/app.py lines 206-258): band inference, band computation, and the
matching pass threading the document `found_map`. -/
def processPage (utrs : List String) (manual_x1 : Option ℚ)
    (fm0 : String → Bool) (page : Page) : PageResult :=
  let y_min := yMinOf page
  let b := computeBand page.page_left page.page_right manual_x1
    (sampleLeftX utrs y_min page.words)
  let ms := pageMatches utrs y_min b.1 b.2.1 page.words
  { x0_band := b.1, x1_band := b.2.1, mode := b.2.2, hits := ms,
    fm := fmAfter fm0 ms }

/-- Fold the page loop from a given `found_map`. -/
def processPagesFrom (utrs : List String) (manual_x1 : Option ℚ)
    (fm0 : String → Bool) (pages : List Page) : String → Bool :=
  pages.foldl (fun fm p => (processPage utrs manual_x1 fm p).fm) fm0

/-- `highlight_left_column_fast` (src/app.py lines 189-264), restricted
to its observable `found_map` output: the map starts all-false for this
document (line 202) and is threaded through the pages. -/
def highlight_left_column_fast (utrs : List String) (manual_x1 : Option ℚ)
    (pages : List Page) : String → Bool :=
  processPagesFrom utrs manual_x1 (fun _ => false) pages

/-! ## The run: CSV rows and the report -/

/-- Lexicographic comparison of strings by code point (Python string
order, used by `sorted`). -/
def lexLe : List Char → List Char → Bool
  | [], _ => true
  | _ :: _, [] => false
  | a :: as, b :: bs =>
    if a.toNat < b.toNat then true
    else if b.toNat < a.toNat then false
    else lexLe as bs

/-- `sorted(utr_set_upper)` (src/app.py line 371): the distinct
identifiers in ascending string order. -/
def sortedUtrs (utrs : List String) : List String :=
  (utrs.dedup).insertionSort (fun a b => lexLe a.data b.data = true)

/-- The `csv_rows` accumulated by the start action (src/app.py
lines 349-372): for each document in order, one `(Reference, found)`
row per sorted identifier, read off the `found_map` of that document. -/
def csvRows (utrs : List String) (manual_x1 : Option ℚ)
    (docs : List (List Page)) : List (String × Bool) :=
  docs.flatMap (fun d =>
    (sortedUtrs utrs).map (fun u =>
      (u, highlight_left_column_fast utrs manual_x1 d u)))

/-- `pandas.DataFrame.drop_duplicates` with default arguments: keep the
first occurrence of every distinct row. -/
def dropDuplicates : List (String × Bool) → List (String × Bool)
  | [] => []
  | r :: rs => r :: dropDuplicates (rs.filter (fun x => x ≠ r))
termination_by l => l.length
decreasing_by
  exact Nat.lt_succ_of_le (List.length_filter_le _ _)

/-- The final report `Reference_report.csv` (src/app.py lines 374-376):
the accumulated rows, first-occurrence deduplicated. -/
def runReport (utrs : List String) (manual_x1 : Option ℚ)
    (docs : List (List Page)) : List (String × Bool) :=
  dropDuplicates (csvRows utrs manual_x1 docs)

/-! ## Supporting lemmas -/

/-- A word is usable for band inference: at or below the header
threshold and with normalised text in the identifier set. -/
def bandEligible (utrs : List String) (y_min : ℚ) (w : Word) : Bool :=
  !(decide (w.y0 < y_min)) && decide (normW w.text ∈ utrs)

/-- The page with the words strictly above the header threshold
removed. -/
def dropHeaderWords (page : Page) : Page :=
  { page with
    words := page.words.filter (fun w => !(decide (w.y0 < yMinOf page))) }

/-- Two page results agree on every observable output. -/
def resultsAgree (r1 r2 : PageResult) : Prop :=
  r1.x0_band = r2.x0_band ∧ r1.x1_band = r2.x1_band ∧ r1.mode = r2.mode ∧
  r1.hits = r2.hits ∧ ∀ u, r1.fm u = r2.fm u

theorem sampleLeftX_eq_filter_head (utrs : List String) (y : ℚ)
    (ws : List Word) :
    sampleLeftX utrs y ws =
      ((ws.filter (bandEligible utrs y)).head?).map Word.x0 := by
  induction ws with
  | nil => rfl
  | cons w ws ih =>
    by_cases h1 : w.y0 < y
    · simp [sampleLeftX, h1, List.filter_cons, bandEligible, ih]
    · by_cases h2 : normW w.text ∈ utrs
      · simp [sampleLeftX, h1, h2, List.filter_cons, bandEligible]
      · simp [sampleLeftX, h1, h2, List.filter_cons, bandEligible, ih]

theorem fmAfter_eq (fm0 : String → Bool) (ms : List Word) (u : String) :
    fmAfter fm0 ms u =
      (fm0 u || ms.any (fun w => decide (normW w.text = u))) := by
  induction ms generalizing fm0 with
  | nil => simp [fmAfter]
  | cons w ms ih =>
    have h1 : fmAfter fm0 (w :: ms) u =
        fmAfter (fun v => if v = normW w.text then true else fm0 v) ms u := rfl
    rw [h1, ih]
    by_cases h : u = normW w.text <;> simp [h, eq_comm]

theorem processPage_x0_band (utrs : List String) (manual_x1 : Option ℚ)
    (fm0 : String → Bool) (page : Page) :
    (processPage utrs manual_x1 fm0 page).x0_band =
      (computeBand page.page_left page.page_right manual_x1
        (sampleLeftX utrs (yMinOf page) page.words)).1 := rfl

theorem processPage_x1_band (utrs : List String) (manual_x1 : Option ℚ)
    (fm0 : String → Bool) (page : Page) :
    (processPage utrs manual_x1 fm0 page).x1_band =
      (computeBand page.page_left page.page_right manual_x1
        (sampleLeftX utrs (yMinOf page) page.words)).2.1 := rfl

theorem processPage_mode (utrs : List String) (manual_x1 : Option ℚ)
    (fm0 : String → Bool) (page : Page) :
    (processPage utrs manual_x1 fm0 page).mode =
      (computeBand page.page_left page.page_right manual_x1
        (sampleLeftX utrs (yMinOf page) page.words)).2.2 := rfl

theorem processPage_hits (utrs : List String) (manual_x1 : Option ℚ)
    (fm0 : String → Bool) (page : Page) :
    (processPage utrs manual_x1 fm0 page).hits =
      pageMatches utrs (yMinOf page)
        (processPage utrs manual_x1 fm0 page).x0_band
        (processPage utrs manual_x1 fm0 page).x1_band page.words := rfl

theorem processPage_fm (utrs : List String) (manual_x1 : Option ℚ)
    (fm0 : String → Bool) (page : Page) :
    (processPage utrs manual_x1 fm0 page).fm =
      fmAfter fm0 (processPage utrs manual_x1 fm0 page).hits := rfl

/-! ## Concrete inputs used by witnesses and counterexamples -/

/-- A single uppercase identifier set. -/
def utrsOne : List String := ["ABCDEF"]

/-- Two identifiers, for band-inference examples. -/
def utrsTwo : List String := ["ABCDEF", "GHIJKL"]

/-- A page whose only word matches `"ABCDEF"` inside the auto band,
below the header zone. -/
def pgHit : Page := ⟨0, 500, 1000, [⟨50, 200, 100, 210, "ABCDEF"⟩]⟩

/-- A page with no words at all. -/
def pgBlank : Page := ⟨0, 500, 1000, []⟩

/-- A page where the first below-header matching word (x0 = 80) is
neither the leftmost nor the topmost matching word (x0 = 30 comes later
in word order). -/
def pgAuto : Page :=
  ⟨0, 500, 1000,
    [⟨80, 200, 130, 210, "ABCDEF"⟩, ⟨30, 300, 75, 310, "GHIJKL"⟩]⟩

/-- The first below-header matching word of `pgAuto`. -/
def wFirst : Word := ⟨80, 200, 130, 210, "ABCDEF"⟩

/-- A page whose only matching word sits in the header zone
(top = 100 < 180), so the band falls back. -/
def pgFall : Page :=
  ⟨10, 600, 1000,
    [⟨50, 100, 90, 110, "ABCDEF"⟩, ⟨50, 300, 90, 310, "XYZ"⟩]⟩

/-! ## Claim theorems -/

/-- C3: on a page with no manual boundary, if some word at or below the
header threshold has normalised text in the identifier set, then the
auto-detected band starts at the left coordinate of the first such word
in the given word order (not the leftmost or topmost), ends at
min(page_right, x0 + 140), and the band mode is auto. -/
theorem auto_band_from_first_eligible_word
    (utrs : List String) (fm0 : String → Bool) (page : Page) (w0 : Word)
    (h : (page.words.filter (bandEligible utrs (yMinOf page))).head? =
      some w0) :
    (processPage utrs none fm0 page).x0_band = w0.x0 ∧
    (processPage utrs none fm0 page).x1_band =
      min page.page_right (w0.x0 + defaultLeftBandWidth) ∧
    (processPage utrs none fm0 page).mode = BandMode.auto := by
  have hs : sampleLeftX utrs (yMinOf page) page.words = some w0.x0 := by
    rw [sampleLeftX_eq_filter_head, h]; rfl
  refine ⟨?_, ?_, ?_⟩ <;>
    simp [processPage_x0_band, processPage_x1_band, processPage_mode, hs,
      computeBand]

/-- Witness for C3, on `pgAuto`: the first eligible word has x0 = 80
even though a later matching word has x0 = 30. -/
theorem auto_band_from_first_eligible_word_w :
    ((pgAuto.words.filter (bandEligible utrsTwo (yMinOf pgAuto))).head? =
      some wFirst) ∧
    (processPage utrsTwo none (fun _ => false) pgAuto).x0_band = wFirst.x0 ∧
    (processPage utrsTwo none (fun _ => false) pgAuto).x1_band =
      min pgAuto.page_right (wFirst.x0 + defaultLeftBandWidth) ∧
    (processPage utrsTwo none (fun _ => false) pgAuto).mode =
      BandMode.auto :=
  ⟨by with_unfolding_all decide,
    (auto_band_from_first_eligible_word utrsTwo (fun _ => false) pgAuto
      wFirst (by with_unfolding_all decide)).1,
    (auto_band_from_first_eligible_word utrsTwo (fun _ => false) pgAuto
      wFirst (by with_unfolding_all decide)).2.1,
    (auto_band_from_first_eligible_word utrsTwo (fun _ => false) pgAuto
      wFirst (by with_unfolding_all decide)).2.2⟩

/-- C4: on a page with no manual boundary where no word at or below the
header threshold has normalised text in the identifier set, the band is
[page_left, min(page_left + 140, page_right)] and the mode is
fallback. -/
theorem fallback_band_when_no_eligible_word
    (utrs : List String) (fm0 : String → Bool) (page : Page)
    (h : ∀ w ∈ page.words, yMinOf page ≤ w.y0 → normW w.text ∉ utrs) :
    (processPage utrs none fm0 page).x0_band = page.page_left ∧
    (processPage utrs none fm0 page).x1_band =
      min (page.page_left + defaultLeftBandWidth) page.page_right ∧
    (processPage utrs none fm0 page).mode = BandMode.fallback := by
  have hf : page.words.filter (bandEligible utrs (yMinOf page)) = [] := by
    apply List.filter_eq_nil_iff.2
    intro w hw
    by_cases hlt : w.y0 < yMinOf page
    · simp [bandEligible, hlt]
    · simp [bandEligible, hlt, h w hw (not_lt.1 hlt)]
  have hs : sampleLeftX utrs (yMinOf page) page.words = none := by
    rw [sampleLeftX_eq_filter_head, hf]; rfl
  refine ⟨?_, ?_, ?_⟩ <;>
    simp [processPage_x0_band, processPage_x1_band, processPage_mode, hs,
      computeBand]

/-- Witness for C4, on `pgFall`: its matching word is in the header
zone, so the band falls back to [10, 150]. -/
theorem fallback_band_when_no_eligible_word_w :
    (∀ w ∈ pgFall.words, yMinOf pgFall ≤ w.y0 → normW w.text ∉ utrsOne) ∧
    (processPage utrsOne none (fun _ => false) pgFall).x0_band =
      pgFall.page_left ∧
    (processPage utrsOne none (fun _ => false) pgFall).x1_band =
      min (pgFall.page_left + defaultLeftBandWidth) pgFall.page_right ∧
    (processPage utrsOne none (fun _ => false) pgFall).mode =
      BandMode.fallback :=
  ⟨by with_unfolding_all decide,
    (fallback_band_when_no_eligible_word utrsOne (fun _ => false) pgFall
      (by with_unfolding_all decide)).1,
    (fallback_band_when_no_eligible_word utrsOne (fun _ => false) pgFall
      (by with_unfolding_all decide)).2.1,
    (fallback_band_when_no_eligible_word utrsOne (fun _ => false) pgFall
      (by with_unfolding_all decide)).2.2⟩

/-- C10: with a manual right boundary every page gets the band
[page_left, manual_x1] with mode manual, and manual_x1 is not clipped
to the page right edge: a boundary beyond page_right extends the band
past the page. -/
theorem manual_band_unclipped (utrs : List String) (fm0 : String → Bool)
    (page : Page) (m : ℚ) :
    (processPage utrs (some m) fm0 page).x0_band = page.page_left ∧
    (processPage utrs (some m) fm0 page).x1_band = m ∧
    (processPage utrs (some m) fm0 page).mode = BandMode.manual ∧
    (page.page_right < m →
      page.page_right < (processPage utrs (some m) fm0 page).x1_band) :=
  ⟨rfl, rfl, rfl, fun h => h⟩

/-- Witness for C10: manual boundary 600 on a page whose right edge is
500 yields a band ending at 600, past the page. -/
theorem manual_band_unclipped_w :
    pgHit.page_right < 600 ∧
    (processPage utrsOne (some 600) (fun _ => false) pgHit).x1_band = 600 ∧
    pgHit.page_right <
      (processPage utrsOne (some 600) (fun _ => false) pgHit).x1_band :=
  ⟨by with_unfolding_all decide,
    (manual_band_unclipped utrsOne (fun _ => false) pgHit 600).2.1,
    (manual_band_unclipped utrsOne (fun _ => false) pgHit 600).2.2.2
      (by with_unfolding_all decide)⟩

/-- Filtering by `q` first does not change a filter by a stronger
predicate `p`. -/
theorem filter_stable_of_imp (p q : Word → Bool)
    (h : ∀ w, p w = true → q w = true) :
    ∀ l : List Word, (l.filter q).filter p = l.filter p := by
  intro l
  induction l with
  | nil => rfl
  | cons w ws ih =>
    by_cases hq : q w = true
    · by_cases hp : p w = true <;> simp [List.filter_cons, hq, hp, ih]
    · have hp : p w = false := by
        cases hpw : p w
        · rfl
        · exact absurd (h w hpw) hq
      simp [List.filter_cons, hq, hp, ih]

/-- Words straddling the band boundary, used in the C6 witness. -/
def pgBand : Page :=
  ⟨50, 400, 1000,
    [⟨180, 200, 210, 210, "ABCDEF"⟩, ⟨60, 250, 185, 260, "ABCDEF"⟩]⟩

/-- The word of `pgBand` spanning [180, 210]. -/
def wStraddle : Word := ⟨180, 200, 210, 210, "ABCDEF"⟩

/-- The word of `pgBand` spanning [60, 185]. -/
def wInside : Word := ⟨60, 250, 185, 260, "ABCDEF"⟩

/-- C6: a word at or below the header threshold is highlighted exactly
when its full horizontal extent lies inside the band
(x0_band ≤ word.left and word.right ≤ x1_band) and its normalised text
is in the identifier set; a word straddling the band boundary is
excluded. -/
theorem full_containment_characterizes_hits
    (utrs : List String) (manual_x1 : Option ℚ) (fm0 : String → Bool)
    (page : Page) (w : Word) (hw : w ∈ page.words)
    (hy : yMinOf page ≤ w.y0) :
    w ∈ (processPage utrs manual_x1 fm0 page).hits ↔
      ((processPage utrs manual_x1 fm0 page).x0_band ≤ w.x0 ∧
       w.x1 ≤ (processPage utrs manual_x1 fm0 page).x1_band ∧
       normW w.text ∈ utrs) := by
  rw [processPage_hits]
  simp [pageMatches, List.mem_filter, hw, wordHit, not_lt.2 hy, and_assoc]

/-- Witness for C6, on `pgBand` with manual band [50, 190]: the word
spanning [60, 185] is kept, the word spanning [180, 210] is excluded
although most of it lies inside. -/
theorem full_containment_characterizes_hits_w :
    wInside ∈ (processPage utrsOne (some 190) (fun _ => false) pgBand).hits ∧
    wStraddle ∉
      (processPage utrsOne (some 190) (fun _ => false) pgBand).hits :=
  ⟨(full_containment_characterizes_hits utrsOne (some 190) (fun _ => false)
      pgBand wInside (by with_unfolding_all decide)
      (by with_unfolding_all decide)).mpr (by with_unfolding_all decide),
   fun hm =>
    absurd ((full_containment_characterizes_hits utrsOne (some 190)
      (fun _ => false) pgBand wStraddle (by with_unfolding_all decide)
      (by with_unfolding_all decide)).mp hm)
      (by with_unfolding_all decide)⟩

/-- C7: matching is exact string equality after trim+uppercase
normalisation: the normalised text of every highlighted word equals a member
of the identifier set, a word whose normalised text differs from every
identifier is never kept, and the found-map is only set through such an
exact match. -/
theorem match_is_exact_normalized_equality
    (utrs : List String) (manual_x1 : Option ℚ) (fm0 : String → Bool)
    (page : Page) :
    (∀ w ∈ (processPage utrs manual_x1 fm0 page).hits,
       ∃ u ∈ utrs, normW w.text = u) ∧
    (∀ w ∈ page.words, (∀ u ∈ utrs, normW w.text ≠ u) →
       w ∉ (processPage utrs manual_x1 fm0 page).hits) ∧
    (∀ u, (processPage utrs manual_x1 fm0 page).fm u = true →
       fm0 u = true ∨
       ∃ w ∈ (processPage utrs manual_x1 fm0 page).hits,
         normW w.text = u) := by
  have key : ∀ w ∈ (processPage utrs manual_x1 fm0 page).hits,
      normW w.text ∈ utrs := by
    intro w hw
    rw [processPage_hits] at hw
    have := (List.mem_filter.1 hw).2
    simp only [wordHit, Bool.and_eq_true, decide_eq_true_eq] at this
    exact this.2
  refine ⟨fun w hw => ⟨normW w.text, key w hw, rfl⟩, ?_, ?_⟩
  · intro w _ hne hmem
    exact hne (normW w.text) (key w hmem) rfl
  · intro u hu
    rw [processPage_fm, fmAfter_eq] at hu
    rcases Bool.or_eq_true_iff.1 hu with h0 | hany
    · exact Or.inl h0
    · rcases List.any_eq_true.1 hany with ⟨w, hw, he⟩
      exact Or.inr ⟨w, hw, of_decide_eq_true he⟩

/-- The prefix-mismatch page of the C7 witness. -/
def pgPfx : Page := ⟨0, 500, 1000, [⟨50, 200, 120, 210, "Q143578A"⟩]⟩

/-- The word of `pgPfx`, sharing a long prefix with the identifier. -/
def wPfx : Word := ⟨50, 200, 120, 210, "Q143578A"⟩

/-- The singleton identifier set of the C7 witness. -/
def utrsQ : List String := ["Q1435783"]

/-- Witness for C7: the word "Q143578A" is never matched against the
identifier set containing only "Q1435783", despite the shared prefix. -/
theorem match_is_exact_normalized_equality_w :
    (∀ u ∈ utrsQ, normW wPfx.text ≠ u) ∧
    wPfx ∉ (processPage utrsQ none (fun _ => false) pgPfx).hits :=
  ⟨by decide,
    (match_is_exact_normalized_equality utrsQ none (fun _ => false)
      pgPfx).2.1 wPfx (by decide) (by decide)⟩

/-- C5: a word with top coordinate strictly below page_height * 0.18 is
ignored entirely — removing every such word changes neither band, mode,
highlighted words nor found-map — while a word with top coordinate at or
above the threshold (equality included) that is in-band and matching is
highlighted. -/
theorem header_words_ignored_and_threshold_inclusive
    (utrs : List String) (manual_x1 : Option ℚ) (fm0 : String → Bool)
    (page : Page) :
    resultsAgree (processPage utrs manual_x1 fm0 (dropHeaderWords page))
      (processPage utrs manual_x1 fm0 page) ∧
    (∀ w ∈ page.words, yMinOf page ≤ w.y0 →
      (processPage utrs manual_x1 fm0 page).x0_band ≤ w.x0 →
      w.x1 ≤ (processPage utrs manual_x1 fm0 page).x1_band →
      normW w.text ∈ utrs →
      w ∈ (processPage utrs manual_x1 fm0 page).hits) := by
  have hy : yMinOf (dropHeaderWords page) = yMinOf page := rfl
  have hwords : (dropHeaderWords page).words =
      page.words.filter (fun w => !(decide (w.y0 < yMinOf page))) := rfl
  have hsample :
      sampleLeftX utrs (yMinOf (dropHeaderWords page))
        (dropHeaderWords page).words =
      sampleLeftX utrs (yMinOf page) page.words := by
    rw [hy, hwords, sampleLeftX_eq_filter_head, sampleLeftX_eq_filter_head,
      filter_stable_of_imp (bandEligible utrs (yMinOf page))
        (fun w => !(decide (w.y0 < yMinOf page)))
        (fun w hw => by
          simp only [bandEligible, Bool.and_eq_true] at hw
          exact hw.1) page.words]
  have hx0 : (processPage utrs manual_x1 fm0 (dropHeaderWords page)).x0_band =
      (processPage utrs manual_x1 fm0 page).x0_band := by
    rw [processPage_x0_band, processPage_x0_band, hsample]
    rfl
  have hx1 : (processPage utrs manual_x1 fm0 (dropHeaderWords page)).x1_band =
      (processPage utrs manual_x1 fm0 page).x1_band := by
    rw [processPage_x1_band, processPage_x1_band, hsample]
    rfl
  have hmode : (processPage utrs manual_x1 fm0 (dropHeaderWords page)).mode =
      (processPage utrs manual_x1 fm0 page).mode := by
    rw [processPage_mode, processPage_mode, hsample]
    rfl
  have hhits : (processPage utrs manual_x1 fm0 (dropHeaderWords page)).hits =
      (processPage utrs manual_x1 fm0 page).hits := by
    rw [processPage_hits, processPage_hits, hx0, hx1, hy, hwords]
    simp only [pageMatches]
    exact filter_stable_of_imp _ _
      (fun w hw => by
        simp only [wordHit, Bool.and_eq_true] at hw
        exact hw.1.1)
      page.words
  refine ⟨⟨hx0, hx1, hmode, hhits, fun u => ?_⟩, ?_⟩
  · rw [processPage_fm, processPage_fm, hhits]
  · intro w hw hy2 hx0w hx1w hmem
    rw [processPage_hits]
    exact List.mem_filter.2
      ⟨hw, by simp [wordHit, not_lt.2 hy2, hx0w, hx1w, hmem]⟩

/-- The header-threshold page of the C5 witness (height 1000, so the
threshold is 180). -/
def pgHdr : Page :=
  ⟨0, 500, 1000,
    [⟨50, 150, 100, 160, "ABCDEF"⟩, ⟨50, 181, 100, 191, "ABCDEF"⟩]⟩

/-- The matching word of `pgHdr` at top = 150 (inside the header
zone). -/
def wTop150 : Word := ⟨50, 150, 100, 160, "ABCDEF"⟩

/-- The matching word of `pgHdr` at top = 181 (below the header
zone). -/
def wTop181 : Word := ⟨50, 181, 100, 191, "ABCDEF"⟩

/-- Witness for C5 on `pgHdr` under the same manual band [0, 300]: the
word at top = 181 is matched, the word at top = 150 is not, and dropping
the header words changes nothing observable. -/
theorem header_words_ignored_and_threshold_inclusive_w :
    wTop181 ∈ (processPage utrsOne (some 300) (fun _ => false) pgHdr).hits ∧
    wTop150 ∉ (processPage utrsOne (some 300) (fun _ => false) pgHdr).hits ∧
    resultsAgree
      (processPage utrsOne (some 300) (fun _ => false)
        (dropHeaderWords pgHdr))
      (processPage utrsOne (some 300) (fun _ => false) pgHdr) :=
  ⟨(header_words_ignored_and_threshold_inclusive utrsOne (some 300)
      (fun _ => false) pgHdr).2 wTop181 (by decide)
      (by with_unfolding_all decide) (by with_unfolding_all decide)
      (by with_unfolding_all decide) (by decide),
   by with_unfolding_all decide,
   (header_words_ignored_and_threshold_inclusive utrsOne (some 300)
      (fun _ => false) pgHdr).1⟩

/-- The kept words of a page do not depend on the incoming found-map. -/
theorem processPage_hits_fm_irrel (utrs : List String)
    (manual_x1 : Option ℚ) (fm0 : String → Bool) (page : Page) :
    (processPage utrs manual_x1 fm0 page).hits =
      (processPage utrs manual_x1 (fun _ => false) page).hits := rfl

/-- Closed form of the found-map after a list of pages: the initial
flag OR-ed with a hit on some page. -/
theorem processPagesFrom_eq_or (utrs : List String) (manual_x1 : Option ℚ)
    (fm0 : String → Bool) (pages : List Page) (u : String) :
    processPagesFrom utrs manual_x1 fm0 pages u =
      (fm0 u || pages.any (fun p =>
        (processPage utrs manual_x1 (fun _ => false) p).hits.any
          (fun w => decide (normW w.text = u)))) := by
  induction pages generalizing fm0 with
  | nil => simp [processPagesFrom]
  | cons p ps ih =>
    have h1 : processPagesFrom utrs manual_x1 fm0 (p :: ps) u =
        processPagesFrom utrs manual_x1
          (processPage utrs manual_x1 fm0 p).fm ps u := rfl
    rw [h1, ih, processPage_fm, fmAfter_eq, processPage_hits_fm_irrel]
    simp [Bool.or_assoc]

/-- Within one document the found-map is monotone: a flag that is true
going into the page loop is still true after it. -/
theorem processPagesFrom_monotone (utrs : List String)
    (manual_x1 : Option ℚ) (fm0 : String → Bool) (pages : List Page)
    (u : String) (h : fm0 u = true) :
    processPagesFrom utrs manual_x1 fm0 pages u = true := by
  rw [processPagesFrom_eq_or, h, Bool.true_or]

/-- Within one document the final found-map does not depend on the
order of the pages. -/
theorem processPagesFrom_perm (utrs : List String) (manual_x1 : Option ℚ)
    (fm0 : String → Bool) (pages pages2 : List Page)
    (h : pages.Perm pages2) (u : String) :
    processPagesFrom utrs manual_x1 fm0 pages u =
      processPagesFrom utrs manual_x1 fm0 pages2 u := by
  rw [processPagesFrom_eq_or, processPagesFrom_eq_or]
  congr 1
  apply Bool.eq_iff_iff.2
  simp only [List.any_eq_true]
  exact ⟨fun ⟨p, hp, hf⟩ => ⟨p, h.mem_iff.1 hp, hf⟩,
    fun ⟨p, hp, hf⟩ => ⟨p, h.mem_iff.2 hp, hf⟩⟩

/-- C1 fails on the code: in a two-document run where "ABCDEF" is found
in the first document but not in the second, the final report carries
two rows for that identifier — `found_map` is rebuilt per document and
`drop_duplicates` only removes rows identical in both columns, so the
identifier does not appear exactly once. -/
theorem run_report_duplicates_identifier :
    runReport utrsOne none [[pgHit], [pgBlank]] =
      [("ABCDEF", true), ("ABCDEF", false)] ∧
    (runReport utrsOne none [[pgHit], [pgBlank]]).map Prod.fst =
      ["ABCDEF", "ABCDEF"] := by
  with_unfolding_all decide

/-- C2 fails on the code: `found_map` is re-initialised to all-false at
the start of every document (src/app.py line 202), so the run-level
found flag of "ABCDEF" is true after the first document and false after
the second — it reverts within the run instead of accumulating by OR
across documents. -/
theorem found_map_reverts_across_documents :
    highlight_left_column_fast utrsOne none [pgHit] "ABCDEF" = true ∧
    highlight_left_column_fast utrsOne none [pgBlank] "ABCDEF" = false ∧
    csvRows utrsOne none [[pgHit], [pgBlank]] =
      [("ABCDEF", true), ("ABCDEF", false)] := by
  with_unfolding_all decide

/-- Scanning a concatenation of read outcomes takes the first hit of
the left part, else scans the right part. -/
theorem scanSheet_append (l1 l2 : List (Option SheetTable)) :
    scanSheet (l1 ++ l2) =
      match scanSheet l1 with
      | some c => some c
      | none => scanSheet l2 := by
  induction l1 with
  | nil => rfl
  | cons o rest ih =>
    cases o with
    | none => simpa [scanSheet] using ih
    | some t =>
      cases h : findUtrCol t with
      | none => simp [scanSheet, h, ih]
      | some c => simp [scanSheet, h]

/-- The sheet loop of one file is the first hit over all
(sheet, header offset) combinations in sheet-major order. -/
theorem scanFile_eq_flatten (sheets : List ExcelSheet) :
    scanFile sheets = scanSheet sheets.flatten := by
  induction sheets with
  | nil => rfl
  | cons s ss ih =>
    rw [List.flatten_cons, scanSheet_append]
    cases h : scanSheet s with
    | none => simp [scanFile, h, ih]
    | some c => simp [scanFile, h]

/-- A file with no UTR-like column anywhere aborts the whole load. -/
theorem load_error_of_bad_file (files : List ExcelFile) (f : ExcelFile)
    (hf : f ∈ files) (hnone : scanFile f.sheets = none) :
    ∃ e, load_utrs_from_excel files = Except.error e := by
  induction files with
  | nil => cases hf
  | cons g gs ih =>
    rcases List.mem_cons.1 hf with rfl | hf2
    · exact ⟨f.name, by simp [load_utrs_from_excel, hnone]⟩
    · cases hscan : scanFile g.sheets with
      | none => exact ⟨g.name, by simp [load_utrs_from_excel, hscan]⟩
      | some cells =>
        rcases ih hf2 with ⟨e, he⟩
        exact ⟨e, by simp [load_utrs_from_excel, hscan, he]⟩

/-- The load succeeds exactly when every file has some sheet and header
offset exposing a UTR-like column. -/
theorem load_ok_iff (files : List ExcelFile) :
    (∃ ts, load_utrs_from_excel files = Except.ok ts) ↔
      ∀ f ∈ files, (scanFile f.sheets).isSome = true := by
  induction files with
  | nil => simp [load_utrs_from_excel]
  | cons g gs ih =>
    cases hscan : scanFile g.sheets with
    | none =>
      constructor
      · rintro ⟨ts, hts⟩
        simp [load_utrs_from_excel, hscan] at hts
      · intro hall
        have := hall g (by simp)
        rw [hscan] at this
        simp at this
    | some cells =>
      cases hload : load_utrs_from_excel gs with
      | error e =>
        constructor
        · rintro ⟨ts, hts⟩
          simp [load_utrs_from_excel, hscan, hload] at hts
        · intro hall
          rcases ih.2 (fun f hf => hall f (List.mem_cons_of_mem g hf)) with
            ⟨ts, hts⟩
          rw [hload] at hts
          simp at hts
      | ok rest =>
        constructor
        · intro _ f hf
          rcases List.mem_cons.1 hf with rfl | hf2
          · rw [hscan]; rfl
          · exact ih.1 ⟨rest, hload⟩ f hf2
        · intro _
          exact ⟨colTokens cells ++ rest,
            by simp [load_utrs_from_excel, hscan, hload]⟩

/-- C8: the sheets of each spreadsheet source and the header offsets
0-4 are scanned in order and the scan stops at the first combination
whose column names contain a "utr"-like header (later combinations are
never consulted); a source none of whose sheets yields such a column
aborts the whole run, and the load succeeds exactly when every source
has one. -/
theorem excel_scan_first_hit_or_abort :
    (∀ sheets : List ExcelSheet, scanFile sheets = scanSheet sheets.flatten) ∧
    (∀ (l1 l2 : List (Option SheetTable)) (t : SheetTable)
       (c : String × List (Option String)),
       scanSheet l1 = none → findUtrCol t = some c →
       scanSheet (l1 ++ some t :: l2) = some c.2) ∧
    (∀ (files : List ExcelFile) (f : ExcelFile), f ∈ files →
       scanFile f.sheets = none →
       ∃ e, load_utrs_from_excel files = Except.error e) ∧
    (∀ files : List ExcelFile,
       (∃ ts, load_utrs_from_excel files = Except.ok ts) ↔
         ∀ f ∈ files, (scanFile f.sheets).isSome = true) := by
  refine ⟨scanFile_eq_flatten, ?_, load_error_of_bad_file, load_ok_iff⟩
  intro l1 l2 t c h1 h2
  rw [scanSheet_append, h1]
  simp [scanSheet, h2]

/-- A table with a UTR-like column in second position. -/
def tblGood : SheetTable :=
  ⟨[("Date", [some "x"]), ("UTR Number", [some "Q1435783", none])]⟩

/-- A table with no UTR-like column. -/
def tblNoUtr : SheetTable := ⟨[("Amount", [some "5"])]⟩

/-- A file whose first sheet hits at header offset 2 (offset 0 raises,
offset 1 has no UTR column). -/
def fileGood : ExcelFile :=
  ⟨"good.xlsx", [[none, some tblNoUtr, some tblGood], [some tblGood]]⟩

/-- A file none of whose reads exposes a UTR-like column. -/
def fileBad : ExcelFile := ⟨"bad.xlsx", [[some tblNoUtr, none]]⟩

/-- Witness for C8: prepending non-hits does not move the first hit,
and a run containing `fileBad` aborts. -/
theorem excel_scan_first_hit_or_abort_w :
    scanSheet [none, some tblNoUtr] = none ∧
    scanSheet ([none, some tblNoUtr] ++ some tblGood :: []) =
      some [some "Q1435783", none] ∧
    scanFile fileBad.sheets = none ∧
    (∃ e, load_utrs_from_excel [fileGood, fileBad] = Except.error e) :=
  ⟨by decide,
    excel_scan_first_hit_or_abort.2.1 [none, some tblNoUtr] [] tblGood
      ("UTR Number", [some "Q1435783", none]) (by decide) (by decide),
    by decide,
    excel_scan_first_hit_or_abort.2.2.1 [fileGood, fileBad] fileBad
      (by decide) (by decide)⟩

/-- Whitespace characters are never alphanumeric. -/
theorem alnum_false_of_pyspace (c : Char) (h : isPySpace c = true) :
    isAlnumAscii c = false := by
  simp only [isPySpace, Bool.or_eq_true, decide_eq_true_eq] at h
  cases hn : isAlnumAscii c
  · rfl
  · exfalso
    simp only [isAlnumAscii, Bool.or_eq_true, Bool.and_eq_true,
      decide_eq_true_eq] at hn
    omega

/-- Alphanumeric characters are never whitespace. -/
theorem pyspace_false_of_alnum (c : Char) (h : isAlnumAscii c = true) :
    isPySpace c = false := by
  cases hs : isPySpace c
  · rfl
  · rw [alnum_false_of_pyspace c hs] at h
    cases h

/-- On a list none of whose characters satisfies `p`, the run scanner
only flushes the pending run. -/
theorem runsByAux_all_fail (p : Char → Bool) (cur l : List Char)
    (h : ∀ c ∈ l, p c = false) :
    runsByAux p cur l = if cur = [] then [] else [cur.reverse] := by
  induction l generalizing cur with
  | nil => rfl
  | cons c cs ih =>
    have hc : p c = false := h c (by simp)
    have hrest : ∀ a ∈ cs, p a = false := fun a ha => h a (by simp [ha])
    by_cases hcur : cur = []
    · simp [runsByAux, hc, hcur, ih [] hrest]
    · simp [runsByAux, hc, hcur, ih [] hrest]

/-- Appending characters that never satisfy `p` does not change the
runs. -/
theorem runsByAux_append_fail (p : Char → Bool) (suf : List Char)
    (hsuf : ∀ c ∈ suf, p c = false) :
    ∀ (l cur : List Char), runsByAux p cur (l ++ suf) = runsByAux p cur l := by
  intro l
  induction l with
  | nil =>
    intro cur
    rw [List.nil_append, runsByAux_all_fail p cur suf hsuf]
    rfl
  | cons c cs ih =>
    intro cur
    by_cases hc : p c = true
    · by_cases hcur : cur = [] <;>
        simp [List.cons_append, runsByAux, hc, hcur, ih]
    · by_cases hcur : cur = [] <;>
        simp [List.cons_append, runsByAux, hc, hcur, ih]

/-- Dropping a leading block of characters that never satisfy `p` does
not change the runs. -/
theorem runsBy_dropWhile_fail (p q : Char → Bool)
    (himp : ∀ c, q c = true → p c = false) (l : List Char) :
    runsBy p (l.dropWhile q) = runsBy p l := by
  induction l with
  | nil => rfl
  | cons c cs ih =>
    by_cases hq : q c = true
    · have h1 : (c :: cs).dropWhile q = cs.dropWhile q := by
        simp [List.dropWhile_cons, hq]
      have h2 : runsBy p (c :: cs) = runsBy p cs := by
        simp [runsBy, runsByAux, himp c hq]
      rw [h1, h2, ih]
    · simp [List.dropWhile_cons, hq]

/-- Stripping whitespace from both ends does not change the
alphanumeric runs (whitespace never being alphanumeric). -/
theorem runsBy_pyStrip (p : Char → Bool)
    (himp : ∀ c, isPySpace c = true → p c = false) (l : List Char) :
    runsBy p (pyStrip l) = runsBy p l := by
  unfold pyStrip
  have h1 : runsBy p
      (((l.dropWhile isPySpace).reverse.dropWhile isPySpace).reverse) =
      runsBy p (l.dropWhile isPySpace) := by
    have hsplit : l.dropWhile isPySpace =
        ((l.dropWhile isPySpace).reverse.dropWhile isPySpace).reverse ++
        ((l.dropWhile isPySpace).reverse.takeWhile isPySpace).reverse := by
      rw [← List.reverse_append, List.takeWhile_append_dropWhile,
        List.reverse_reverse]
    conv_rhs => rw [hsplit]
    exact (runsByAux_append_fail p _
      (fun c hc => himp c
        (List.mem_takeWhile_imp (List.mem_reverse.1 hc))) _ []).symm
  rw [h1, runsBy_dropWhile_fail p isPySpace himp]

/-- Replacing characters in a way that fixes `p`-characters and
preserves `p`-status does not change the runs. -/
theorem runsByAux_map_invariant (p : Char → Bool) (f : Char → Char)
    (hfix : ∀ c, p c = true → f c = c)
    (hpres : ∀ c, p (f c) = p c) :
    ∀ (l cur : List Char), runsByAux p cur (l.map f) = runsByAux p cur l := by
  intro l
  induction l with
  | nil => intro cur; rfl
  | cons c cs ih =>
    intro cur
    by_cases hc : p c = true
    · simp [List.map_cons, runsByAux, hpres c, hc, hfix c hc, ih]
    · by_cases hcur : cur = [] <;>
        simp [List.map_cons, runsByAux, hpres c, hc, hcur, ih]

/-- Every character of every run produced by the scanner satisfies the
run predicate (provided the pending run does). -/
theorem runsByAux_mem_sat (p : Char → Bool) :
    ∀ (l cur : List Char), (∀ c ∈ cur, p c = true) →
      ∀ r ∈ runsByAux p cur l, ∀ c ∈ r, p c = true := by
  intro l
  induction l with
  | nil =>
    intro cur hall r hr c hc
    by_cases h : cur = []
    · subst h
      simp [runsByAux] at hr
    · simp [runsByAux, h] at hr
      subst hr
      exact hall c (List.mem_reverse.1 hc)
  | cons a as ih =>
    intro cur hall r hr c hc
    by_cases ha : p a = true
    · rw [show runsByAux p cur (a :: as) = runsByAux p (a :: cur) as from
        by simp [runsByAux, ha]] at hr
      refine ih (a :: cur) ?_ r hr c hc
      intro x hx
      rcases List.mem_cons.1 hx with rfl | hx2
      · exact ha
      · exact hall x hx2
    · by_cases hnil : cur = []
      · rw [show runsByAux p cur (a :: as) = runsByAux p [] as from
          by simp [runsByAux, ha, hnil]] at hr
        exact ih [] (by simp) r hr c hc
      · rw [show runsByAux p cur (a :: as) =
            cur.reverse :: runsByAux p [] as from
          by simp [runsByAux, ha, hnil]] at hr
        rcases List.mem_cons.1 hr with rfl | hr2
        · exact hall c (List.mem_reverse.1 hc)
        · exact ih [] (by simp) r hr2 c hc

/-- Every character of a run of `runsBy p` satisfies `p`. -/
theorem runsBy_mem_sat (p : Char → Bool) (l r : List Char)
    (hr : r ∈ runsBy p l) : ∀ c ∈ r, p c = true :=
  runsByAux_mem_sat p l [] (by simp) r hr

/-- `dropWhile` is the identity when no character satisfies the
predicate. -/
theorem dropWhile_eq_self_of_all (q : Char → Bool) (l : List Char)
    (h : ∀ c ∈ l, q c = false) : l.dropWhile q = l := by
  cases l with
  | nil => rfl
  | cons c cs => simp [List.dropWhile_cons, h c (by simp)]

/-- Stripping is the identity on an all-alphanumeric token. -/
theorem pyStrip_eq_self_of_alnum (r : List Char)
    (h : ∀ c ∈ r, isAlnumAscii c = true) : pyStrip r = r := by
  unfold pyStrip
  rw [dropWhile_eq_self_of_all _ r
    (fun c hc => pyspace_false_of_alnum c (h c hc))]
  rw [dropWhile_eq_self_of_all _ r.reverse
    (fun c hc => pyspace_false_of_alnum c (h c (List.mem_reverse.1 hc)))]
  rw [List.reverse_reverse]

/-- The non-breaking-space replacement of the reference tokenizer. -/
def nbspToSpace (c : Char) : Char := if c.toNat = 160 then ' ' else c

/-- The identifier-set contribution of one cell in the program: each
`extract_utrs_from_cell` token, stripped and uppercased (the
`token.strip().upper()` of src/app.py lines 145-146). -/
def cellIdentifiers (val : Option String) : List String :=
  (extract_utrs_from_cell val).map (fun t => ⟨pyUpper (pyStrip t.data)⟩)

/-- Modelled from the spec (§9, regex-based token extraction): the
reference tokenizer first replaces non-breaking spaces by regular
spaces, then extracts the maximal alphanumeric runs of length at least
6 and uppercases each. -/
def specTokenizer (s : String) : List String :=
  (utrFindall (s.data.map nbspToSpace)).map (fun r => ⟨pyUpper r⟩)

/-- The replacement fixes alphanumeric characters. -/
theorem nbspToSpace_fix (c : Char) (h : isAlnumAscii c = true) :
    nbspToSpace c = c := by
  unfold nbspToSpace
  rw [if_neg]
  intro h160
  simp only [isAlnumAscii, Bool.or_eq_true, Bool.and_eq_true,
    decide_eq_true_eq] at h
  omega

/-- The replacement preserves alphanumeric status. -/
theorem nbspToSpace_pres (c : Char) :
    isAlnumAscii (nbspToSpace c) = isAlnumAscii c := by
  unfold nbspToSpace
  by_cases h : c.toNat = 160
  · rw [if_pos h]
    have h2 : isAlnumAscii c = false := by
      cases hn : isAlnumAscii c
      · rfl
      · exfalso
        simp only [isAlnumAscii, Bool.or_eq_true, Bool.and_eq_true,
          decide_eq_true_eq] at hn
        omega
    rw [h2]
    decide
  · rw [if_neg h]

/-- C9: the per-cell token extraction returns exactly the maximal runs
of at least 6 ASCII alphanumeric characters of the cell text, each
uppercased (the outer strip is immaterial), and for every input string
it agrees with the reference tokenizer of the spec that first replaces
non-breaking spaces by regular spaces. -/
theorem cell_tokenizer_refines_spec (s : String) :
    cellIdentifiers (some s) =
      (utrFindall s.data).map (fun r => ⟨pyUpper r⟩) ∧
    cellIdentifiers (some s) = specTokenizer s := by
  have hfind : utrFindall (pyStrip s.data) = utrFindall s.data := by
    unfold utrFindall
    rw [runsBy_pyStrip isAlnumAscii alnum_false_of_pyspace]
  have h1 : cellIdentifiers (some s) =
      (utrFindall s.data).map (fun r => ⟨pyUpper r⟩) := by
    have hcell : extract_utrs_from_cell (some s) =
        (utrFindall (pyStrip s.data)).map (fun r => ⟨r⟩) := rfl
    unfold cellIdentifiers
    rw [hcell, hfind, List.map_map]
    apply List.map_congr_left
    intro r hr
    have hall : ∀ c ∈ r, isAlnumAscii c = true :=
      runsBy_mem_sat isAlnumAscii s.data r (List.mem_filter.1 hr).1
    simp only [Function.comp]
    rw [pyStrip_eq_self_of_alnum r hall]
  have h2 : utrFindall (s.data.map nbspToSpace) = utrFindall s.data := by
    unfold utrFindall runsBy
    rw [runsByAux_map_invariant isAlnumAscii nbspToSpace nbspToSpace_fix
      nbspToSpace_pres s.data []]
  exact ⟨h1, by rw [h1]; unfold specTokenizer; rw [h2]⟩

end App
